import Mathlib

/-!
# Verification development for `hw_12_ph_book.py`

Shallow embedding of the address-book program: validated fields (`Phone`,
`Birthday`), contact `Record`s, and the `AddressBook` collection (a Python
dict modelled as an insertion-ordered association list).  Python exceptions
are modelled with `PyResult`; mutating methods return the result together
with the post-call state, so that state surviving a raised exception (as it
does for live Python objects) is visible in the model.
-/

/-- Python errors raised by the modelled code: `ValueError` from field
validation and date construction, `KeyError` from mapping deletion. -/
inductive PyErr where
  | valueError
  | keyError
deriving DecidableEq

/-- Result of a Python call that may raise: a normal return value or a
raised error. -/
inductive PyResult (α : Type) where
  | ok (val : α)
  | raised (err : PyErr)
deriving DecidableEq

/-- Model of a Python `datetime.date` / `datetime.datetime` value: a
year/month/day triple.  Python only ever holds triples that pass `valid`;
the raw structure admits invalid triples so that validation is visible. -/
structure PyDate where
  year : Nat
  month : Nat
  day : Nat
deriving DecidableEq

/-- Gregorian leap-year rule, as used by Python's `datetime`. -/
def isLeapYear (y : Nat) : Bool :=
  decide ((y % 4 = 0 ∧ ¬y % 100 = 0) ∨ y % 400 = 0)

/-- Number of days in month `m` (1..12) of a year with leap flag `leap`. -/
def daysInMonth (leap : Bool) (m : Nat) : Nat :=
  if m = 2 then (if leap then 29 else 28)
  else if m = 4 ∨ m = 6 ∨ m = 9 ∨ m = 11 then 30
  else 31

/-- The validity check Python's `datetime(year, month, day)` performs:
year in `MINYEAR..MAXYEAR` (1..9999), month in 1..12, day in range for the
month. -/
def PyDate.valid (d : PyDate) : Bool :=
  decide (1 ≤ d.year ∧ d.year ≤ 9999 ∧ 1 ≤ d.month ∧ d.month ≤ 12 ∧
    1 ≤ d.day ∧ d.day ≤ daysInMonth (isLeapYear d.year) d.month)

/-- Python date comparison `a < b`: lexicographic on (year, month, day). -/
def PyDate.ltb (a b : PyDate) : Bool :=
  decide (a.year < b.year ∨ (a.year = b.year ∧
    (a.month < b.month ∨ (a.month = b.month ∧ a.day < b.day))))

/-- Days in the months strictly before month `m` in a year with leap flag
`leap` (cumulative month lengths). -/
def daysBeforeMonth (leap : Bool) (m : Nat) : Nat :=
  (match m with
   | 1 => 0 | 2 => 31 | 3 => 59 | 4 => 90 | 5 => 120 | 6 => 151 | 7 => 181
   | 8 => 212 | 9 => 243 | 10 => 273 | 11 => 304 | _ => 334) +
  (if leap ∧ 3 ≤ m then 1 else 0)

/-- Ordinal day within the year (1 = January 1st). -/
def PyDate.dayOfYear (d : PyDate) : Nat :=
  daysBeforeMonth (isLeapYear d.year) d.month + d.day

/-- Ordinal of the day before January 1st of year `y` in the proleptic
Gregorian calendar (so `toOrdinal ⟨1,1,1⟩ = 1`, matching Python's
`date.toordinal`). -/
def yearStartOrd (y : Nat) : Nat :=
  365 * (y - 1) + (y - 1) / 4 + (y - 1) / 400 - (y - 1) / 100

/-- Python's `date.toordinal`: day count in the proleptic Gregorian
calendar with `date(1,1,1)` mapped to 1. -/
def PyDate.toOrdinal (d : PyDate) : Nat :=
  yearStartOrd d.year + d.dayOfYear

/-- Python date subtraction `(a - b).days` as a signed day count. -/
def dateSub (a b : PyDate) : Int :=
  (a.toOrdinal : Int) - (b.toOrdinal : Int)

/-- Python `datetime(y, m, d)`: validates the triple, raising `ValueError`
on an invalid calendar date (this is also `date.replace`, which
re-validates the replaced fields). -/
def mkDatetime (y m d : Nat) : PyResult PyDate :=
  if (PyDate.mk y m d).valid then .ok (PyDate.mk y m d) else .raised .valueError

/-- `Phone.validate_phone` from the source: the value must be a string
whose `isdigit()` holds, i.e. non-empty and made of digit characters. -/
def validate_phone (s : String) : Bool :=
  !s.data.isEmpty && s.data.all (fun c => c.isDigit)

/-- The `Phone` field: a validated string value (`_value` in the source). -/
structure Phone where
  value : String
deriving DecidableEq

/-- `Field.get_value` specialised to `Phone`. -/
def Phone.get_value (p : Phone) : String := p.value

/-- `Phone(s)`: construction runs `set_value`, so it validates and raises
`ValueError` on a bad phone string; no object exists on failure. -/
def Phone.make (s : String) : PyResult Phone :=
  if validate_phone s then .ok ⟨s⟩ else .raised .valueError

/-- `Phone.set_value` on an existing field: on failure the exception is
raised before assignment, so the field keeps its previous value. -/
def Phone.set_value (p : Phone) (s : String) : PyResult Unit × Phone :=
  if validate_phone s then (.ok (), ⟨s⟩) else (.raised .valueError, p)

/-- `Birthday.validate_birthday` from the source: format the date as
`YYYY-MM-DD` and re-parse it with `strptime`.  The round trip succeeds
exactly when the triple is a real calendar date in year 1..9999, which is
`PyDate.valid`. -/
def validate_birthday (d : PyDate) : Bool := d.valid

/-- The `Birthday` field: a validated date value. -/
structure Birthday where
  value : PyDate
deriving DecidableEq

/-- `Field.get_value` specialised to `Birthday`. -/
def Birthday.get_value (b : Birthday) : PyDate := b.value

/-- `Birthday.get_month`. -/
def Birthday.get_month (b : Birthday) : Nat := b.value.month

/-- `Birthday.get_day`. -/
def Birthday.get_day (b : Birthday) : Nat := b.value.day

/-- `Birthday(d)`: construction validates and raises on failure. -/
def Birthday.make (d : PyDate) : PyResult Birthday :=
  if validate_birthday d then .ok ⟨d⟩ else .raised .valueError

/-- `Birthday.set_value` on an existing field: raises before assignment on
an invalid date, keeping the previous value. -/
def Birthday.set_value (b : Birthday) (d : PyDate) : PyResult Unit × Birthday :=
  if validate_birthday d then (.ok (), ⟨d⟩) else (.raised .valueError, b)

/-- One contact: a `Name` field (plain string, no validation), an ordered
list of `Phone` fields, and an optional `Birthday` field. -/
structure Record where
  name : String
  phones : List Phone
  birthday : Option Birthday
deriving DecidableEq

/-- `Record.add_phone` on a string argument (the branch exercised by the
collection operations): builds a `Phone`, which validates and may raise;
on success the new phone is appended to the ordered sequence. -/
def Record.add_phone (r : Record) (s : String) : PyResult Unit × Record :=
  if validate_phone s then (.ok (), { r with phones := r.phones ++ [⟨s⟩] })
  else (.raised .valueError, r)

/-- The `for phone in phones: record.add_phone(phone)` loop: appends each
string in turn, stopping with the raised exception at the first invalid
one; the record keeps the phones appended before the failure. -/
def addPhones (r : Record) : List String → PyResult Unit × Record
  | [] => (.ok (), r)
  | s :: rest =>
    match r.add_phone s with
    | (.ok _, r') => addPhones r' rest
    | (.raised e, r') => (.raised e, r')

/-- `Record(name, phone?, birthday?)`: wraps the name, wraps a birthday if
one is given (a `date` argument is always truthy in Python), and adds the
initial phone if the string is truthy (non-empty). -/
def Record.make (name : String) (phone : Option String) (bday : Option PyDate) :
    PyResult Record :=
  match bday with
  | some d =>
    if validate_birthday d then
      match phone with
      | some p =>
        if p = "" then .ok ⟨name, [], some ⟨d⟩⟩
        else
          match Record.add_phone ⟨name, [], some ⟨d⟩⟩ p with
          | (.ok _, r') => .ok r'
          | (.raised e, _) => .raised e
      | none => .ok ⟨name, [], some ⟨d⟩⟩
    else .raised .valueError
  | none =>
    match phone with
    | some p =>
      if p = "" then .ok ⟨name, [], none⟩
      else
        match Record.add_phone ⟨name, [], none⟩ p with
        | (.ok _, r') => .ok r'
        | (.raised e, _) => .raised e
    | none => .ok ⟨name, [], none⟩

/-- `Record.days_to_birthday`, with `today` (the value of
`datetime.now().date()` in the source) passed explicitly.  `none` when no
birthday is set; otherwise `datetime(today.year, month, day)` is built
(which may raise `ValueError`), advanced by one year via `replace` when it
is strictly earlier than `today` (which may also raise), and the whole-day
difference is returned. -/
def Record.days_to_birthday (r : Record) (today : PyDate) : Option (PyResult Int) :=
  match r.birthday with
  | none => none
  | some b =>
    some (match mkDatetime today.year b.get_month b.get_day with
      | .raised e => .raised e
      | .ok nb =>
        if nb.ltb today then
          match mkDatetime (today.year + 1) nb.month nb.day with
          | .raised e => .raised e
          | .ok nb2 => .ok (dateSub nb2 today)
        else .ok (dateSub nb today))

/-- Lookup in an insertion-ordered association list (a Python dict has
unique keys, so first match is the binding). -/
def lookupKey : List (String × Record) → String → Option Record
  | [], _ => none
  | (k, v) :: rest, key => if k = key then some v else lookupKey rest key

/-- Python dict assignment `data[k] = v`: replaces the value in place when
the key exists (keeping its position in insertion order), otherwise
appends the new binding at the end. -/
def setKey : List (String × Record) → String → Record → List (String × Record)
  | [], k, v => [(k, v)]
  | (k', v') :: rest, k, v =>
    if k' = k then (k, v) :: rest else (k', v') :: setKey rest k v

/-- The `AddressBook` collection: `self.data`, an insertion-ordered mapping
from name keys to records. -/
structure AddressBook where
  data : List (String × Record)
deriving DecidableEq

/-- Key list of the mapping, in insertion order (`list(self.data.keys())`). -/
def AddressBook.keys (book : AddressBook) : List String :=
  book.data.map Prod.fst

/-- Record list of the mapping, in insertion order (`self.data.values()`). -/
def AddressBook.records (book : AddressBook) : List Record :=
  book.data.map Prod.snd

/-- Dict key lookup `self.data[k]` / `k in self.data`. -/
def AddressBook.lookup (book : AddressBook) (k : String) : Option Record :=
  lookupKey book.data k

/-- Dict assignment `self.data[k] = v`. -/
def AddressBook.set (book : AddressBook) (k : String) (r : Record) : AddressBook :=
  ⟨setKey book.data k r⟩

/-- The dict-key uniqueness invariant every reachable `AddressBook`
satisfies (a Python dict cannot hold a key twice). -/
def AddressBook.WF (book : AddressBook) : Prop :=
  book.keys.Nodup

/-- `AddressBook.iterator(page_size)`: the generator snapshots the key list
and yields `self.data[key]` for each key in order, one record per step;
`page_size` is accepted but never used.  Modelled as the finite list of
yielded records. -/
def AddressBook.iterator (book : AddressBook) (_pageSize : Nat) : List Record :=
  book.keys.filterMap book.lookup

/-- `AddressBook.add_record(name, phones?, birthday?)`: builds the record
(raising on an invalid birthday), adds each phone string in turn (raising
on the first invalid one) — all before the dict assignment, so a raised
exception leaves the mapping unchanged.  An empty phone list is falsy and
skipped. -/
def AddressBook.add_record (book : AddressBook) (name : String)
    (phones : Option (List String)) (bday : Option PyDate) :
    PyResult Unit × AddressBook :=
  match Record.make name none bday with
  | .raised e => (.raised e, book)
  | .ok record =>
    match phones with
    | some ps =>
      if ps = [] then (.ok (), book.set name record)
      else
        match addPhones record ps with
        | (.ok _, r') => (.ok (), book.set name r')
        | (.raised e, _) => (.raised e, book)
    | none => (.ok (), book.set name record)

/-- `AddressBook.edit_record(name, new_name?, new_phones?)`: when `name`
is not a key, returns the message string `"{name} Name not found "` and
touches nothing.  Otherwise the record is mutated in place: a truthy
(non-empty) `new_name` is written into its `Name` field; a truthy
(non-empty) `new_phones` list first discards the whole phone sequence and
then appends freshly validated phones one at a time, so a `ValueError`
part-way leaves the record holding only the validated front part (the
record lives inside the dict, so the partial mutation persists past the
raised exception).  Returns `none` (Python `None`) on success. -/
def AddressBook.edit_record (book : AddressBook) (name : String)
    (new_name : Option String) (new_phones : Option (List String)) :
    PyResult (Option String) × AddressBook :=
  match book.lookup name with
  | none => (.ok (some (name ++ " Name not found ")), book)
  | some record =>
    let record1 := match new_name with
      | some nn => if nn = "" then record else { record with name := nn }
      | none => record
    match new_phones with
    | some ps =>
      if ps = [] then (.ok none, book.set name record1)
      else
        match addPhones { record1 with phones := [] } ps with
        | (.ok _, r') => (.ok none, book.set name r')
        | (.raised e, r') => (.raised e, book.set name r')
    | none => (.ok none, book.set name record1)

/-- `AddressBook.find_records_by_name`: linear scan over the records in
insertion order, keeping those whose current name value equals `name`. -/
def AddressBook.find_records_by_name (book : AddressBook) (name : String) :
    List Record :=
  book.records.filter (fun r => r.name == name)

/-- `AddressBook.delete_record`: `del self.data[name]`, raising `KeyError`
when the key is absent. -/
def delKey : List (String × Record) → String → List (String × Record)
  | [], _ => []
  | (k', v') :: rest, k => if k' = k then rest else (k', v') :: delKey rest k

/-- `AddressBook.delete_record` (see `delKey`). -/
def AddressBook.delete_record (book : AddressBook) (name : String) :
    PyResult Unit × AddressBook :=
  match book.lookup name with
  | some _ => (.ok (), ⟨delKey book.data name⟩)
  | none => (.raised .keyError, book)

/-- Modelled from the spec: the persistence layer uses the Python `pickle`
stdlib module, which is outside this repository.  The spec's persistence
contract requires the artifact to "round-trip every Record field (name,
all phones, birthday presence/value) losslessly", so the pickled blob is
modelled as an explicit field-by-field flattening of each record. -/
structure SerRecord where
  name : String
  phones : List String
  birthday : Option PyDate
deriving DecidableEq

/-- Modelled from the spec: the on-disk artifact written by
`pickle.dump(self.data, file)` — the flattened key-to-record mapping. -/
structure PickleBlob where
  payload : List (String × SerRecord)
deriving DecidableEq

/-- Flatten one record into its serialized form (every field kept). -/
def serializeRecord (r : Record) : SerRecord :=
  ⟨r.name, r.phones.map Phone.value, r.birthday.map Birthday.value⟩

/-- Rebuild a record from its serialized form. -/
def deserializeRecord (s : SerRecord) : Record :=
  ⟨s.name, s.phones.map Phone.mk, s.birthday.map Birthday.mk⟩

/-- `AddressBook.save_to_file`: writes the pickled mapping; the file path
plays no role in the data contract, so the model returns the blob. -/
def AddressBook.save_to_file (book : AddressBook) : PickleBlob :=
  ⟨book.data.map (fun kv => (kv.1, serializeRecord kv.2))⟩

/-- `AddressBook.load_from_file`: replaces `self.data` with the unpickled
mapping; when the file is absent (`none`), `FileNotFoundError` is caught
and the collection is left unchanged. -/
def AddressBook.load_from_file (book : AddressBook) (file : Option PickleBlob) :
    AddressBook :=
  match file with
  | some blob => ⟨blob.payload.map (fun kv => (kv.1, deserializeRecord kv.2))⟩
  | none => book

/-- The spec's description of the next-occurrence date used by
`days_to_birthday` (refinement target, stated in the spec's words): the
birthday's month/day in today's year, advanced by one year when that date
is strictly earlier than today. -/
def specNextBirthday (today : PyDate) (m d : Nat) : PyDate :=
  if PyDate.ltb ⟨today.year, m, d⟩ today then ⟨today.year + 1, m, d⟩
  else ⟨today.year, m, d⟩

/-- A record whose stored birthday is February 29 (of the leap year 1992);
used to exhibit the `days_to_birthday` failure mode. -/
def leapRecord : Record :=
  { name := "Leap", phones := [], birthday := some ⟨⟨1992, 2, 29⟩⟩ }

/-- The spec's example record: Ann, one phone, birthday 1990-05-01. -/
def annRecord : Record :=
  { name := "Ann", phones := [⟨"12345"⟩], birthday := some ⟨⟨1990, 5, 1⟩⟩ }

/-- A one-record collection holding Bob. -/
def bobRecord : Record :=
  { name := "Bob", phones := [⟨"111"⟩], birthday := none }

/-- A one-record collection holding Bob under key "Bob". -/
def bobBook : AddressBook := ⟨[("Bob", bobRecord)]⟩

/-- A five-record collection, mirroring the spec's paging scenario. -/
def book5 : AddressBook :=
  ⟨[("A", ⟨"A", [], none⟩), ("B", ⟨"B", [], none⟩), ("C", ⟨"C", [], none⟩),
    ("D", ⟨"D", [], none⟩), ("E", ⟨"E", [], none⟩)]⟩

/-- C1: for every collection and every name absent from the key mapping,
`edit_record` signals not-found (the message return, the code's NotFound
channel) and leaves the collection unchanged. -/
theorem c1_edit_record_absent (book : AddressBook) (name : String)
    (new_name : Option String) (new_phones : Option (List String))
    (h : book.lookup name = none) :
    book.edit_record name new_name new_phones =
      (.ok (some (name ++ " Name not found ")), book) := by
  unfold AddressBook.edit_record
  rw [h]

/-- Witness for C1 at the empty collection and the name "Ann". -/
theorem c1_edit_record_absent_witness :
    (AddressBook.mk []).lookup "Ann" = none ∧
    (AddressBook.mk []).edit_record "Ann" none none =
      (.ok (some ("Ann" ++ " Name not found ")), AddressBook.mk []) :=
  ⟨rfl, c1_edit_record_absent (AddressBook.mk []) "Ann" none none rfl⟩

/-- C2: a string of decimal digits yields a `Phone` whose `get_value` is
the string; a string with a non-digit character, or the empty string,
makes construction raise `ValueError`. -/
theorem c2_phone_validation (s : String) :
    ((∀ c ∈ s.data, c.isDigit = true) ∧ s ≠ "" →
      ∃ p : Phone, Phone.make s = .ok p ∧ p.get_value = s) ∧
    ((∃ c ∈ s.data, c.isDigit = false) ∨ s = "" →
      Phone.make s = .raised .valueError) := by
  constructor
  · rintro ⟨hall, hne⟩
    have h1 : s.data.isEmpty = false := by
      cases hd : s.data with
      | nil => exact absurd (String.ext (by rw [hd])) hne
      | cons a l => rfl
    have h2 : s.data.all (fun c => c.isDigit) = true := List.all_eq_true.mpr hall
    refine ⟨⟨s⟩, ?_, rfl⟩
    simp [Phone.make, validate_phone, h1, h2]
  · intro h
    have hv : validate_phone s = false := by
      rcases h with ⟨c, hc, hcd⟩ | rfl
      · have hna : ¬s.data.all (fun c => c.isDigit) = true := fun hall =>
          absurd (List.all_eq_true.mp hall c hc) (by simp [hcd])
        have h2 : s.data.all (fun c => c.isDigit) = false :=
          Bool.eq_false_iff.mpr hna
        simp [validate_phone, h2]
      · rfl
    simp [Phone.make, hv]

/-- Witness for C2 at the digit string "0123456789", the mixed string
"12a", and the empty string. -/
theorem c2_phone_validation_witness :
    (∃ p : Phone, Phone.make "0123456789" = .ok p ∧ p.get_value = "0123456789") ∧
    Phone.make "12a" = .raised .valueError ∧
    Phone.make "" = .raised .valueError :=
  ⟨(c2_phone_validation "0123456789").1 ⟨by decide, by decide⟩,
    (c2_phone_validation "12a").2 (.inl ⟨'a', by decide, by decide⟩),
    (c2_phone_validation "").2 (.inr rfl)⟩

/-- C9: a `Phone` or `Birthday` field holding a valid value, when `set`
with an invalid value, raises `ValueError` and keeps its previous value,
so the stored value still satisfies its validation predicate. -/
theorem c9_set_value_keeps_valid (p : Phone) (b : Birthday) (s : String) (d : PyDate)
    (hp : validate_phone p.value = true) (hb : validate_birthday b.value = true)
    (hs : validate_phone s = false) (hd : validate_birthday d = false) :
    p.set_value s = (.raised .valueError, p) ∧
    validate_phone (p.set_value s).2.value = true ∧
    b.set_value d = (.raised .valueError, b) ∧
    validate_birthday (b.set_value d).2.value = true := by
  simp [Phone.set_value, Birthday.set_value, hs, hd, hp, hb]

/-- Witness for C9: a valid phone "123" set to "12a", and a valid birthday
1990-05-01 set to the non-date 1990-02-30. -/
theorem c9_set_value_keeps_valid_witness :
    validate_phone (Phone.mk "123").value = true ∧
    validate_birthday (Birthday.mk ⟨1990, 5, 1⟩).value = true ∧
    validate_phone "12a" = false ∧
    validate_birthday ⟨1990, 2, 30⟩ = false ∧
    ((Phone.mk "123").set_value "12a" = (.raised .valueError, ⟨"123"⟩) ∧
      validate_phone ((Phone.mk "123").set_value "12a").2.value = true ∧
      (Birthday.mk ⟨1990, 5, 1⟩).set_value ⟨1990, 2, 30⟩ =
        (.raised .valueError, ⟨⟨1990, 5, 1⟩⟩) ∧
      validate_birthday ((Birthday.mk ⟨1990, 5, 1⟩).set_value ⟨1990, 2, 30⟩).2.value = true) :=
  ⟨by decide, by decide, by decide, by decide,
    c9_set_value_keeps_valid ⟨"123"⟩ ⟨⟨1990, 5, 1⟩⟩ "12a" ⟨1990, 2, 30⟩
      (by decide) (by decide) (by decide) (by decide)⟩

/-- C4: `days_to_birthday` on a stored birthday of February 29 raises
`ValueError` instead of returning an integer, both when today's year is
not a leap year (2023) and, for a passed date, when the following year is
not a leap year (today 2024-03-01, next year 2025). -/
theorem c4_feb29_raises :
    leapRecord.days_to_birthday ⟨2023, 1, 1⟩ = some (.raised .valueError) ∧
    leapRecord.days_to_birthday ⟨2024, 3, 1⟩ = some (.raised .valueError) := by
  constructor <;> rfl

/-- Counterexample to C3 as stated: `leapRecord` has a birthday set, yet
`days_to_birthday` at today = 2023-01-01 raises `ValueError` rather than
returning the specified non-negative whole-day difference. -/
theorem c3_counterexample_feb29 :
    leapRecord.birthday ≠ none ∧
    leapRecord.days_to_birthday ⟨2023, 1, 1⟩ = some (.raised .valueError) := by
  exact ⟨by simp [leapRecord], rfl⟩

/-- Dict assignment at an existing or new key makes lookup at that key
return the assigned record. -/
theorem lookupKey_setKey_self (l : List (String × Record)) (k : String) (v : Record) :
    lookupKey (setKey l k v) k = some v := by
  induction l with
  | nil => simp [setKey, lookupKey]
  | cons kv rest ih =>
    cases kv with
    | mk k' v' =>
      by_cases h : k' = k
      · simp [setKey, h, lookupKey]
      · simp [setKey, h, lookupKey, ih]

/-- Dict assignment at a key that is already present leaves the key list
(insertion order) unchanged. -/
theorem keys_setKey_of_lookup (l : List (String × Record)) (k : String) (v v' : Record)
    (h : lookupKey l k = some v') :
    (setKey l k v).map Prod.fst = l.map Prod.fst := by
  induction l with
  | nil => simp [lookupKey] at h
  | cons kv rest ih =>
    cases kv with
    | mk k0 v0 =>
      by_cases hk : k0 = k
      · simp [setKey, hk]
      · simp only [lookupKey, hk, if_false, reduceIte] at h
        simp [setKey, hk, ih h]

/-- The record written by a dict assignment is among the mapping's
records. -/
theorem snd_mem_setKey (l : List (String × Record)) (k : String) (v : Record) :
    v ∈ (setKey l k v).map Prod.snd := by
  induction l with
  | nil => simp [setKey]
  | cons kv rest ih =>
    cases kv with
    | mk k0 v0 =>
      by_cases hk : k0 = k
      · simp [setKey, hk]
      · simp only [setKey, hk, if_false, reduceIte, List.map_cons, List.mem_cons]
        exact Or.inr ih

/-- C5: renaming via `edit_record` rewrites the record's internal name in
place: the result is the same collection with the record (now carrying the
new name) still stored under the old key, the key list unchanged, and the
renamed record is returned by `find_records_by_name` on the new name. -/
theorem c5_edit_record_rename (book : AddressBook) (name nn : String) (r : Record)
    (hl : book.lookup name = some r) (hnn : nn ≠ "") :
    book.edit_record name (some nn) none =
      (.ok none, book.set name { r with name := nn }) ∧
    (book.set name { r with name := nn }).lookup name = some { r with name := nn } ∧
    (book.set name { r with name := nn }).keys = book.keys ∧
    { r with name := nn } ∈
      (book.set name { r with name := nn }).find_records_by_name nn := by
  refine ⟨?_, ?_, ?_, ?_⟩
  · unfold AddressBook.edit_record
    rw [hl]
    simp [hnn]
  · exact lookupKey_setKey_self book.data name _
  · exact keys_setKey_of_lookup book.data name _ r hl
  · unfold AddressBook.find_records_by_name AddressBook.records AddressBook.set
    refine List.mem_filter.mpr ⟨snd_mem_setKey book.data name _, by simp⟩

/-- Witness for C5: renaming Bob to Bobby in a one-record collection. -/
theorem c5_edit_record_rename_witness :
    bobBook.lookup "Bob" = some bobRecord ∧
    (bobBook.edit_record "Bob" (some "Bobby") none =
      (.ok none, bobBook.set "Bob" { bobRecord with name := "Bobby" }) ∧
    (bobBook.set "Bob" { bobRecord with name := "Bobby" }).lookup "Bob" =
      some { bobRecord with name := "Bobby" } ∧
    (bobBook.set "Bob" { bobRecord with name := "Bobby" }).keys = bobBook.keys ∧
    { bobRecord with name := "Bobby" } ∈
      (bobBook.set "Bob" { bobRecord with name := "Bobby" }).find_records_by_name "Bobby") :=
  ⟨rfl, c5_edit_record_rename bobBook "Bob" "Bobby" bobRecord rfl (by decide)⟩

/-- Replacing phones stops at the first invalid string: the appended
phones so far stay, the exception carries `ValueError`. -/
theorem addPhones_first_invalid (r : Record) (good : List String) (bad : String)
    (rest : List String) (hg : ∀ p ∈ good, validate_phone p = true)
    (hb : validate_phone bad = false) :
    addPhones r (good ++ bad :: rest) =
      (.raised .valueError, { r with phones := r.phones ++ good.map Phone.mk }) := by
  induction good generalizing r with
  | nil => simp [addPhones, Record.add_phone, hb]
  | cons p ps ih =>
    have hp : validate_phone p = true := hg p (by simp)
    have hg' : ∀ q ∈ ps, validate_phone q = true := fun q hq => hg q (by simp [hq])
    simp only [List.cons_append, addPhones, Record.add_phone, hp, if_true,
      List.append_eq]
    rw [ih _ hg']
    simp [List.append_assoc]

/-- C6: `edit_record` with a phone list containing an invalid string is
not atomic: it raises `ValueError`, and the stored record has lost its old
phones, holding exactly the validated front part of the new list. -/
theorem c6_edit_record_partial_phones (book : AddressBook) (name : String) (r : Record)
    (good : List String) (bad : String) (rest : List String)
    (hl : book.lookup name = some r)
    (hg : ∀ p ∈ good, validate_phone p = true) (hb : validate_phone bad = false) :
    book.edit_record name none (some (good ++ bad :: rest)) =
      (.raised .valueError, book.set name { r with phones := good.map Phone.mk }) := by
  unfold AddressBook.edit_record
  rw [hl]
  have hne : good ++ bad :: rest ≠ [] := by simp
  simp only [hne, if_false, reduceIte]
  rw [addPhones_first_invalid _ good bad rest hg hb]
  rfl

/-- Witness for C6: replacing Bob's phones ["111"] with ["222", "x"]
raises and leaves Bob holding only ["222"]. -/
theorem c6_edit_record_partial_phones_witness :
    bobBook.lookup "Bob" = some bobRecord ∧
    validate_phone "x" = false ∧
    bobBook.edit_record "Bob" none (some ["222", "x"]) =
      (.raised .valueError,
        bobBook.set "Bob" { bobRecord with phones := ["222"].map Phone.mk }) :=
  ⟨rfl, by decide,
    c6_edit_record_partial_phones bobBook "Bob" bobRecord ["222"] "x" [] rfl
      (by decide) (by decide)⟩

/-- Adding a list of phone strings that contains an invalid one always
ends in a raised `ValueError`. -/
theorem addPhones_some_invalid (r : Record) (ps : List String)
    (h : ∃ p ∈ ps, validate_phone p = false) :
    ∃ r', addPhones r ps = (.raised .valueError, r') := by
  induction ps generalizing r with
  | nil => simp at h
  | cons p rest ih =>
    by_cases hp : validate_phone p = true
    · have h' : ∃ q ∈ rest, validate_phone q = false := by
        rcases h with ⟨q, hq, hqf⟩
        rcases List.mem_cons.mp hq with rfl | hq'
        · rw [hp] at hqf; cases hqf
        · exact ⟨q, hq', hqf⟩
      simp only [addPhones, Record.add_phone, hp, if_true]
      exact ih _ h'
    · have hp' : validate_phone p = false := Bool.eq_false_iff.mpr hp
      exact ⟨r, by simp [addPhones, Record.add_phone, hp']⟩

/-- C10: `add_record` with a phone list containing an invalid string
raises `ValueError` before the dict assignment, leaving the collection
(including any existing entry under the same name) unchanged. -/
theorem c10_add_record_atomic (book : AddressBook) (name : String)
    (ps : List String) (bday : Option PyDate)
    (h : ∃ p ∈ ps, validate_phone p = false) :
    book.add_record name (some ps) bday = (.raised .valueError, book) := by
  have hne : ps ≠ [] := by rcases h with ⟨p, hp, _⟩; exact List.ne_nil_of_mem hp
  unfold AddressBook.add_record
  cases bday with
  | none =>
    simp only [Record.make]
    simp only [hne, if_false, reduceIte]
    rcases addPhones_some_invalid ⟨name, [], none⟩ ps h with ⟨r', hr'⟩
    rw [hr']
  | some d =>
    by_cases hd : validate_birthday d = true
    · simp only [Record.make, hd, if_true]
      simp only [hne, if_false, reduceIte]
      rcases addPhones_some_invalid ⟨name, [], some ⟨d⟩⟩ ps h with ⟨r', hr'⟩
      rw [hr']
    · simp [Record.make, Bool.eq_false_iff.mpr hd]

/-- Witness for C10: adding Ann with the invalid phone "12a" to a
one-record collection raises and changes nothing. -/
theorem c10_add_record_atomic_witness :
    (∃ p ∈ ["12a"], validate_phone p = false) ∧
    bobBook.add_record "Bob" (some ["12a"]) none = (.raised .valueError, bobBook) :=
  ⟨⟨"12a", by decide, by decide⟩,
    c10_add_record_atomic bobBook "Bob" ["12a"] none ⟨"12a", by decide, by decide⟩⟩

/-- `filterMap` only depends on the function's values on the list. -/
theorem filterMap_congr_mem {α β : Type} (f g : α → Option β) (l : List α)
    (h : ∀ a ∈ l, f a = g a) : l.filterMap f = l.filterMap g := by
  induction l with
  | nil => rfl
  | cons a l ih =>
    rw [List.filterMap_cons, List.filterMap_cons, h a (by simp),
      ih (fun b hb => h b (by simp [hb]))]

/-- With distinct keys, looking each key of the mapping up again yields
exactly the stored records in insertion order. -/
theorem keys_filterMap_lookup (l : List (String × Record))
    (h : (l.map Prod.fst).Nodup) :
    (l.map Prod.fst).filterMap (lookupKey l) = l.map Prod.snd := by
  induction l with
  | nil => rfl
  | cons kv rest ih =>
    cases kv with
    | mk k v =>
      simp only [List.map_cons] at h ⊢
      rcases List.nodup_cons.mp h with ⟨hk, hrest⟩
      rw [List.filterMap_cons]
      have h1 : lookupKey ((k, v) :: rest) k = some v := by simp [lookupKey]
      rw [h1]
      have h2 : (rest.map Prod.fst).filterMap (lookupKey ((k, v) :: rest)) =
          (rest.map Prod.fst).filterMap (lookupKey rest) := by
        apply filterMap_congr_mem
        intro a ha
        have hne : ¬k = a := fun he => hk (he ▸ ha)
        simp [lookupKey, hne]
      rw [h2, ih hrest]

/-- C7: over a collection with the dict's distinct-keys invariant,
`iterator(page_size)` yields exactly the stored records, one per step, in
insertion order, independently of `page_size`; it is a finite list, and a
repeated call yields the same list again. -/
theorem c7_iterator_yields_records (book : AddressBook) (h : book.WF) (p q : Nat) :
    book.iterator p = book.records ∧ book.iterator p = book.iterator q := by
  have h1 : book.iterator p = book.records := keys_filterMap_lookup book.data h
  have h2 : book.iterator q = book.records := keys_filterMap_lookup book.data h
  exact ⟨h1, h1.trans h2.symm⟩

/-- Witness for C7: the five-record collection of the spec's paging
scenario, with page sizes 2 and 3. -/
theorem c7_iterator_yields_records_witness :
    book5.WF ∧ book5.iterator 2 = book5.records ∧ book5.iterator 2 = book5.iterator 3 :=
  ⟨by unfold AddressBook.WF; decide,
    (c7_iterator_yields_records book5 (by unfold AddressBook.WF; decide) 2 3).1,
    (c7_iterator_yields_records book5 (by unfold AddressBook.WF; decide) 2 3).2⟩

/-- Serialization then deserialization restores every record field. -/
theorem roundtrip_record (r : Record) : deserializeRecord (serializeRecord r) = r := by
  cases r with
  | mk name phones birthday =>
    have hp : (phones.map Phone.value).map Phone.mk = phones := by
      rw [List.map_map]
      have : (Phone.mk ∘ Phone.value) = id := funext fun p => by cases p; rfl
      rw [this, List.map_id]
    have hb : (birthday.map Birthday.value).map Birthday.mk = birthday := by
      cases birthday with
      | none => rfl
      | some b => cases b; rfl
    simp [serializeRecord, deserializeRecord, hp, hb]

/-- C8: saving a collection and loading the artifact into any collection
reproduces the original mapping exactly — same keys, names, phone values
in order, and birthday presence/value — so every lookup agrees. -/
theorem c8_save_load_roundtrip (book other : AddressBook) :
    other.load_from_file (some book.save_to_file) = book ∧
    ∀ k, (other.load_from_file (some book.save_to_file)).lookup k = book.lookup k := by
  have h : other.load_from_file (some book.save_to_file) = book := by
    unfold AddressBook.load_from_file AddressBook.save_to_file
    cases book with
    | mk data =>
      simp only [List.map_map]
      congr 1
      have : ((fun kv : String × SerRecord => (kv.1, deserializeRecord kv.2)) ∘
          fun kv : String × Record => (kv.1, serializeRecord kv.2)) = id := by
        funext kv
        cases kv with
        | mk k r => simp [Function.comp, roundtrip_record]
      rw [this, List.map_id]
  exact ⟨h, fun k => by rw [h]⟩

/-- Advancing strictly in months advances the cumulative day count past
the whole earlier month. -/
theorem daysBeforeMonth_add_le (leap : Bool) :
    ∀ m1, m1 < 13 → 1 ≤ m1 → ∀ m2, m2 < 13 → m1 < m2 →
      daysBeforeMonth leap m1 + daysInMonth leap m1 ≤ daysBeforeMonth leap m2 := by
  cases leap <;> decide

/-- A month's last day stays within the year's length. -/
theorem daysBeforeMonth_daysInMonth_le (leap : Bool) :
    ∀ m, m < 13 → 1 ≤ m →
      daysBeforeMonth leap m + daysInMonth leap m ≤
        365 + (if leap then 1 else 0) := by
  cases leap <;> decide

/-- On a valid date the day-of-year index lies in `1 .. 365+leap`. -/
theorem dayOfYear_bounds (d : PyDate) (h : d.valid = true) :
    1 ≤ d.dayOfYear ∧
      d.dayOfYear ≤ 365 + (if isLeapYear d.year then 1 else 0) := by
  obtain ⟨h1, h2, h3, h4, h5, h6⟩ := of_decide_eq_true h
  have hstep := daysBeforeMonth_daysInMonth_le (isLeapYear d.year) d.month
    (by omega) h3
  unfold PyDate.dayOfYear
  rcases Bool.eq_false_or_eq_true (isLeapYear d.year) with hL | hL <;>
    rw [hL] at h6 hstep ⊢ <;> simp at hstep ⊢ <;> omega

/-- Within one year, the ordinal respects the month/day order for valid
dates. -/
theorem toOrdinal_le_same_year (a b : PyDate) (ha : a.valid = true) (hb : b.valid = true)
    (hy : a.year = b.year)
    (hmd : a.month < b.month ∨ (a.month = b.month ∧ a.day ≤ b.day)) :
    a.toOrdinal ≤ b.toOrdinal := by
  obtain ⟨ha1, ha2, ha3, ha4, ha5, ha6⟩ := of_decide_eq_true ha
  obtain ⟨hb1, hb2, hb3, hb4, hb5, hb6⟩ := of_decide_eq_true hb
  unfold PyDate.toOrdinal PyDate.dayOfYear
  rw [hy] at ha6 ⊢
  rcases hmd with h | ⟨hm, hd⟩
  · have hstep := daysBeforeMonth_add_le (isLeapYear b.year) a.month (by omega) ha3
      b.month (by omega) h
    omega
  · rw [hm]
    omega

set_option maxHeartbeats 1600000 in
/-- Advancing the year start by one year adds exactly the year's length
(the divisibility bookkeeping matches the leap rule). -/
theorem yearStartOrd_succ (y : Nat) (hy : 1 ≤ y) :
    yearStartOrd (y + 1) = yearStartOrd y + 365 + (if isLeapYear y then 1 else 0) := by
  by_cases hL : isLeapYear y = true
  · have hp : (y % 4 = 0 ∧ ¬y % 100 = 0) ∨ y % 400 = 0 := decide_eq_true_iff.mp hL
    rw [if_pos hL]
    unfold yearStartOrd
    omega
  · have hp : ¬((y % 4 = 0 ∧ ¬y % 100 = 0) ∨ y % 400 = 0) := fun hc =>
      hL (decide_eq_true_iff.mpr hc)
    rw [if_neg hL]
    unfold yearStartOrd
    omega

/-- A valid date of year `y` precedes every valid date of year `y + 1` in
the ordinal count. -/
theorem toOrdinal_lt_next_year (a b : PyDate) (ha : a.valid = true) (hb : b.valid = true)
    (hy : b.year = a.year + 1) : a.toOrdinal < b.toOrdinal := by
  have hA := dayOfYear_bounds a ha
  have hB := dayOfYear_bounds b hb
  obtain ⟨ha1, _⟩ := of_decide_eq_true ha
  have hys := yearStartOrd_succ a.year ha1
  unfold PyDate.toOrdinal
  rw [hy, hys]
  rcases Bool.eq_false_or_eq_true (isLeapYear a.year) with hL | hL <;>
    rw [hL] at hA ⊢ <;> simp at hA ⊢ <;> omega

/-- A successful `datetime` construction returns exactly the requested
triple, which is then a valid date. -/
theorem mkDatetime_ok (y m d : Nat) (x : PyDate) (h : mkDatetime y m d = .ok x) :
    x = PyDate.mk y m d ∧ (PyDate.mk y m d).valid = true := by
  unfold mkDatetime at h
  by_cases hv : (PyDate.mk y m d).valid = true
  · rw [if_pos hv] at h
    injection h with h'
    exact ⟨h'.symm, hv⟩
  · rw [if_neg hv] at h
    exact absurd h (by simp)

/-- C3 (amended): `days_to_birthday` is absent exactly when no birthday is
set; whenever it does return an integer `n` (that is, neither `datetime`
construction raises — see C4 for the February 29 / year-9999 failure
mode), `n` equals the whole-day difference from `today` to the spec's
next-occurrence date, `n` is non-negative, and `n = 0` when today's
month and day equal the birthday's. -/
theorem c3_amended_days_to_birthday (r : Record) (today : PyDate)
    (ht : today.valid = true) :
    (r.days_to_birthday today = none ↔ r.birthday = none) ∧
    (∀ b : Birthday, r.birthday = some b → ∀ n : Int,
      r.days_to_birthday today = some (.ok n) →
      n = dateSub (specNextBirthday today b.get_month b.get_day) today ∧
      0 ≤ n ∧
      (b.get_month = today.month ∧ b.get_day = today.day → n = 0)) := by
  constructor
  · cases hb : r.birthday <;> simp [Record.days_to_birthday, hb]
  · intro b hb n hn
    have h2 : r.days_to_birthday today =
        some (match mkDatetime today.year b.get_month b.get_day with
          | .raised e => (.raised e : PyResult Int)
          | .ok nb =>
            if nb.ltb today then
              match mkDatetime (today.year + 1) nb.month nb.day with
              | .raised e => .raised e
              | .ok nb2 => .ok (dateSub nb2 today)
            else .ok (dateSub nb today)) := by
      unfold Record.days_to_birthday
      rw [hb]
    rw [h2] at hn
    have hn1 := Option.some.inj hn
    by_cases hv : (PyDate.mk today.year b.get_month b.get_day).valid = true
    case neg =>
      have hmk : mkDatetime today.year b.get_month b.get_day = .raised .valueError := by
        unfold mkDatetime
        rw [if_neg hv]
      rw [hmk] at hn1
      exact absurd hn1 (by simp)
    case pos =>
      have hmk : mkDatetime today.year b.get_month b.get_day =
          .ok (PyDate.mk today.year b.get_month b.get_day) := by
        unfold mkDatetime
        rw [if_pos hv]
      rw [hmk] at hn1
      have hn2 : (if (PyDate.mk today.year b.get_month b.get_day).ltb today then
            (match mkDatetime (today.year + 1) b.get_month b.get_day with
              | .raised e => (.raised e : PyResult Int)
              | .ok nb2 => .ok (dateSub nb2 today))
          else .ok (dateSub (PyDate.mk today.year b.get_month b.get_day) today)) =
          .ok n := hn1
      by_cases hlt : (PyDate.mk today.year b.get_month b.get_day).ltb today = true
      case pos =>
        rw [if_pos hlt] at hn2
        by_cases hv2 : (PyDate.mk (today.year + 1) b.get_month b.get_day).valid = true
        case neg =>
          have hmk2 : mkDatetime (today.year + 1) b.get_month b.get_day =
              .raised .valueError := by
            unfold mkDatetime
            rw [if_neg hv2]
          rw [hmk2] at hn2
          exact absurd hn2 (by simp)
        case pos =>
          have hmk2 : mkDatetime (today.year + 1) b.get_month b.get_day =
              .ok (PyDate.mk (today.year + 1) b.get_month b.get_day) := by
            unfold mkDatetime
            rw [if_pos hv2]
          rw [hmk2] at hn2
          have hn3 : PyResult.ok
              (dateSub (PyDate.mk (today.year + 1) b.get_month b.get_day) today) =
              (PyResult.ok n : PyResult Int) := hn2
          injection hn3 with hneq
          have hcross := toOrdinal_lt_next_year today
            (PyDate.mk (today.year + 1) b.get_month b.get_day) ht hv2 rfl
          refine ⟨?_, ?_, ?_⟩
          · unfold specNextBirthday
            rw [if_pos hlt]
            exact hneq.symm
          · rw [← hneq]
            unfold dateSub
            omega
          · rintro ⟨hm, hd⟩
            have hp := of_decide_eq_true hlt
            simp at hp
            omega
      case neg =>
        rw [if_neg hlt] at hn2
        have hn3 : PyResult.ok
            (dateSub (PyDate.mk today.year b.get_month b.get_day) today) =
            (PyResult.ok n : PyResult Int) := hn2
        injection hn3 with hneq
        refine ⟨?_, ?_, ?_⟩
        · unfold specNextBirthday
          rw [if_neg hlt]
          exact hneq.symm
        · have hf : PyDate.ltb (PyDate.mk today.year b.get_month b.get_day) today = false :=
            Bool.eq_false_iff.mpr hlt
          have hp := of_decide_eq_false hf
          simp at hp
          have hle := toOrdinal_le_same_year today
            (PyDate.mk today.year b.get_month b.get_day) ht hv rfl (by simp; omega)
          rw [← hneq]
          unfold dateSub
          omega
        · rintro ⟨hm, hd⟩
          rw [← hneq, hm, hd]
          have he : PyDate.mk today.year today.month today.day = today := rfl
          rw [he]
          simp [dateSub]

/-- Witness for the amended C3: Ann's record (birthday 1990-05-01) with
today = 2024-03-15, a valid date. -/
theorem c3_amended_days_to_birthday_witness :
    (PyDate.mk 2024 3 15).valid = true ∧
    ((annRecord.days_to_birthday ⟨2024, 3, 15⟩ = none ↔ annRecord.birthday = none) ∧
      (∀ b : Birthday, annRecord.birthday = some b → ∀ n : Int,
        annRecord.days_to_birthday ⟨2024, 3, 15⟩ = some (.ok n) →
        n = dateSub (specNextBirthday ⟨2024, 3, 15⟩ b.get_month b.get_day)
          ⟨2024, 3, 15⟩ ∧
        0 ≤ n ∧
        (b.get_month = (PyDate.mk 2024 3 15).month ∧
            b.get_day = (PyDate.mk 2024 3 15).day → n = 0))) :=
  ⟨by decide, c3_amended_days_to_birthday annRecord ⟨2024, 3, 15⟩ (by decide)⟩
